import Mathlib

/-!
Shallow embedding of `src/lib/utils/s3.js` from the simply-s3 repository:
the chunk splitter (`ReadStreamHandler`) and the multipart uploader
(`S3.putS3Stream`, `S3.putS3Object` and the remote primitives it drives).

Bytes are modelled as `Nat`, buffers as `List Nat`.  The underlying readable
stream is modelled by the list of `data` events it will deliver (each event a
non-empty buffer in a real Node stream), together with the handler's `closed`
flag.  The remote store is an oracle (`Remote`) giving the outcome of each
remote call, and the uploader produces the trace of remote calls it performs
together with its result.
-/

/-- State of a `ReadStreamHandler` as observed between two calls to
`getNextChunk`: the `data` events the stream has yet to deliver (an `unshift`
puts a buffer back at the head of this queue) and the `closed` flag set by the
handler's permanent `end` listener.  The `chunkList` field of the class is
always empty between calls (every resolve path clears it before resolving),
so it is not part of the state. -/
structure StreamState where
  events : List (List Nat)
  closed : Bool
  deriving Repr, DecidableEq

/-- A freshly constructed `ReadStreamHandler` over a stream that will deliver
the given `data` events: nothing consumed yet, not closed, stream paused. -/
def mkStream (events : List (List Nat)) : StreamState :=
  ⟨events, false⟩

/-- Mirrors the `currentChunkSize` getter (s3.js line 55-57):
`chunkList.reduce((acc, buff) => acc + buff.length, 0)`. -/
def currentChunkSize (chunkList : List (List Nat)) : Nat :=
  chunkList.foldl (fun acc buff => acc + buff.length) 0

/-- One run of the listeners installed by a `getNextChunk` call.  The first
argument is the accumulated `chunkList`, the second the `data` events still to
be delivered.  Mirrors `onData` / `onEnd` (s3.js lines 74-137):

* end of stream with an empty `chunkList` resolves `null`; with a non-empty
  `chunkList` it resolves the concatenation (the handler's own `end` listener
  has set `closed` and destroyed the stream);
* a buffer bringing `currentChunkSize` to exactly `max` (line 78) resolves the
  concatenation after removing the listeners — but, unlike the over-`max`
  path, without pausing the stream.  A flowing Node stream keeps emitting its
  remaining buffered data even with no `data` listener attached, so those
  events are dropped and the stream runs to its end: the state after such a
  call has no events left and is closed;
* a buffer bringing the size over `max` (lines 92-113) pauses the stream,
  resolves the first `max` bytes and unshifts the surplus back onto the
  stream, so the surplus becomes the head event of the remaining queue. -/
def chunkLoop (maxB : Nat) : List (List Nat) → List (List Nat) → Option (List Nat) × StreamState
  | chunkList, [] =>
    if chunkList = [] then (none, ⟨[], true⟩)
    else (some chunkList.flatten, ⟨[], true⟩)
  | chunkList, e :: rest =>
    let cl := chunkList ++ [e]
    if currentChunkSize cl = maxB then
      (some cl.flatten, ⟨[], true⟩)
    else if currentChunkSize cl ≤ maxB then
      chunkLoop maxB cl rest
    else
      (some (cl.flatten.take maxB), ⟨cl.flatten.drop maxB :: rest, false⟩)

/-- Models one call to `ReadStreamHandler.getNextChunk` (s3.js lines 66-141):
returns the resolved value (`none` models resolving `null`) and the handler
state left behind for the next call. -/
def getNextChunk (maxB : Nat) (s : StreamState) : Option (List Nat) × StreamState :=
  if s.closed then (none, s) else chunkLoop maxB [] s.events

/-- Repeatedly calls `getNextChunk` until it resolves `null`, collecting the
emitted chunks in order.  `fuel` bounds the number of calls; every claim
instantiates it large enough for the run to finish. -/
def splitAll (maxB : Nat) : Nat → StreamState → List (List Nat)
  | 0, _ => []
  | fuel + 1, s =>
    match getNextChunk maxB s with
    | (none, _) => []
    | (some c, s') => c :: splitAll maxB fuel s'

example : splitAll 2 9 (mkStream [[1, 2, 3]]) = [[1, 2], [3]] := by decide
example : splitAll 2 9 (mkStream [[1, 2, 3], [4, 5]]) = [[1, 2], [3, 4], [5]] := by decide
example : splitAll 3 9 (mkStream [[1, 2, 3, 4, 5, 6]]) = [[1, 2, 3], [4, 5, 6]] := by decide
example : splitAll 2 9 (mkStream []) = [] := by decide
-- the exact-boundary special case drops the still-arriving tail:
example : splitAll 2 9 (mkStream [[1, 2], [3]]) = [[1, 2]] := by decide

/-- Response object returned by the remote store for one `uploadPart` call,
as the JS code sees it: the `ETag` integrity tag, an optional
`ServerSideEncryption` member (deleted before finalization), the `PartNumber`
member (absent until the code assigns it) and the remaining members of the
response, represented opaquely as key-value pairs. -/
structure PartRecord where
  ETag : String
  ServerSideEncryption : Option String
  PartNumber : Option Nat
  others : List (String × String)
  deriving Repr, DecidableEq

/-- Errors a run of the uploader can surface: a JavaScript `TypeError`
(e.g. reading a property of `null`) or an error rejected by a remote call. -/
inductive JsError where
  | typeError (msg : String)
  | remote (msg : String)
  deriving Repr, DecidableEq

/-- Parameter object built by `S3.putS3Object` (s3.js lines 188-197):
`Body`, `Bucket`, `Key`, and a `ContentType` member that is set only when the
key matches the regular expression `\.html$`. -/
structure ObjectParams where
  Body : List Nat
  Bucket : String
  Key : String
  ContentType : Option String
  deriving Repr, DecidableEq

/-- The characters of the regular-expression literal `.html` (after the
escape, the pattern matches a literal dot followed by `html`). -/
def dotHtml : List Char := ['.', 'h', 't', 'm', 'l']

/-- Models the test `/\.html$/.test(objectKey)` (s3.js line 195): the regex
engine tries the end-anchored pattern at every position of the subject, so
the test succeeds exactly when some tail of the subject is `.html` followed
by nothing. -/
def matchDotHtmlEnd : List Char → Bool
  | [] => false
  | c :: cs => if c :: cs = dotHtml then true else matchDotHtmlEnd cs

/-- Models the `params` object built by `S3.putS3Object` (s3.js lines
187-197), including the conditional `ContentType = text/html`. -/
def putS3ObjectParams (body : List Nat) (bucket objectKey : String) : ObjectParams :=
  { Body := body
    Bucket := bucket
    Key := objectKey
    ContentType := if matchDotHtmlEnd objectKey.data then some "text/html" else none }

/-- One remote call performed by the uploader, in the order the code issues
them.  `batchDrain n` marks an `await Promise.all(uploadPromises)` join over a
batch of `n` in-flight part uploads (s3.js lines 253 and 267). -/
inductive S3Call where
  | putObject (params : ObjectParams)
  | createMultipartUpload
  | uploadPart (partNumber : Nat) (body : List Nat)
  | batchDrain (size : Nat)
  | completeMultipartUpload (uploadId : String) (parts : List PartRecord)
  | abortMultipartUpload (uploadId : String)
  deriving Repr, DecidableEq

/-- Oracle describing how the remote store answers each call: the outcome of
`createMultipartUpload` (an `UploadId` on success), the outcome of the
`uploadPart` call for each part number, and the outcomes of `putObject`,
`completeMultipartUpload` and `abortMultipartUpload`. -/
structure Remote where
  createResult : Except JsError String
  partResult : Nat → Except JsError PartRecord
  putResult : Except JsError Unit
  completeResult : Except JsError Unit
  abortResult : Except JsError Unit

/-- Models `await Promise.all(uploadPromises)` over the in-flight part
uploads with the given part numbers: all results in dispatch order on
success, or the error of the failing part (`Promise.all` rejects with it). -/
def awaitAll (remote : Remote) : List Nat → Except JsError (List PartRecord)
  | [] => Except.ok []
  | n :: ns =>
    match remote.partResult n, awaitAll remote ns with
    | Except.error e, _ => Except.error e
    | Except.ok _, Except.error e => Except.error e
    | Except.ok p, Except.ok ps => Except.ok (p :: ps)

/-- Helper for `finalizeParts`, carrying the next 1-based position. -/
def finalizeGo (k : Nat) : List PartRecord → List PartRecord
  | [] => []
  | p :: ps =>
    { p with PartNumber := some k, ServerSideEncryption := none } :: finalizeGo (k + 1) ps

/-- Models the `parts.map((part, index) => ...)` pass of `putS3Stream`
(s3.js lines 272-278): overwrite `PartNumber` with the 1-based position and
delete the `ServerSideEncryption` member, leaving everything else intact. -/
def finalizeParts (parts : List PartRecord) : List PartRecord :=
  finalizeGo 1 parts

/-- Models the `while (chunk)` loop of `putS3Stream` plus the final drain of
the remaining promises (s3.js lines 239-268).  Arguments mirror the JS local
variables: the current `chunk`, the part numbers of the pending
`uploadPromises`, the collected `parts`, and the next `partNumber`.  Returns
the trace of calls made inside the loop together with either the collected
raw parts or the first error thrown by a batch.  `fuel` bounds the number of
loop iterations; running out of fuel is reported as an error so that a
successful run always means the loop genuinely finished. -/
def uploadLoop (remote : Remote) (maxConc maxB : Nat) :
    Nat → StreamState → Option (List Nat) → List Nat → List PartRecord → Nat →
    List S3Call × Except JsError (List PartRecord)
  | 0, _, _, _, _, _ => ([], Except.error (JsError.typeError "fuel exhausted"))
  | _ + 1, _, none, pending, parts, _ =>
    if pending = [] then ([], Except.ok parts)
    else
      match awaitAll remote pending with
      | Except.error e => ([S3Call.batchDrain pending.length], Except.error e)
      | Except.ok newParts => ([S3Call.batchDrain pending.length], Except.ok (parts ++ newParts))
  | fuel + 1, st, some c, pending, parts, partNumber =>
    let pending2 := pending ++ [partNumber]
    if maxConc ≤ pending2.length then
      match awaitAll remote pending2 with
      | Except.error e =>
        ([S3Call.uploadPart partNumber c, S3Call.batchDrain pending2.length], Except.error e)
      | Except.ok newParts =>
        let pulled := getNextChunk maxB st
        let res := uploadLoop remote maxConc maxB fuel pulled.2 pulled.1 [] (parts ++ newParts)
          (partNumber + 1)
        (S3Call.uploadPart partNumber c :: S3Call.batchDrain pending2.length :: res.1, res.2)
    else
      let pulled := getNextChunk maxB st
      let res := uploadLoop remote maxConc maxB fuel pulled.2 pulled.1 pending2 parts
        (partNumber + 1)
      (S3Call.uploadPart partNumber c :: res.1, res.2)

/-- Models `S3.putS3Stream` (s3.js lines 221-290) over a stream in state
`s0`: pull the first chunk; reading `chunk.length` when the splitter resolved
`null` is the JavaScript `TypeError` of line 224; a first chunk strictly
shorter than the maximum is uploaded with a single `putObject`; otherwise a
multipart session is created, the chunk loop runs, on any error the session
is aborted and the error re-raised — with the abort call's own rejection
replacing the original error, exactly as the unguarded `await` inside the
`catch` block does — and on success the collected parts are renumbered by
`finalizeParts` and submitted to `completeMultipartUpload`. -/
def putS3Stream (remote : Remote) (maxConc maxB fuel : Nat) (s0 : StreamState)
    (bucket objectKey : String) : List S3Call × Except JsError Unit :=
  let pulled := getNextChunk maxB s0
  match pulled.1 with
  | none => ([], Except.error (JsError.typeError "cannot read length of null"))
  | some c =>
    if c.length < maxB then
      ([S3Call.putObject (putS3ObjectParams c bucket objectKey)], remote.putResult)
    else
      match remote.createResult with
      | Except.error e => ([S3Call.createMultipartUpload], Except.error e)
      | Except.ok uploadId =>
        let run := uploadLoop remote maxConc maxB fuel pulled.2 (some c) [] [] 1
        match run.2 with
        | Except.error e =>
          (S3Call.createMultipartUpload :: run.1 ++ [S3Call.abortMultipartUpload uploadId],
            match remote.abortResult with
            | Except.ok _ => Except.error e
            | Except.error e2 => Except.error e2)
        | Except.ok rawParts =>
          (S3Call.createMultipartUpload :: run.1
              ++ [S3Call.completeMultipartUpload uploadId (finalizeParts rawParts)],
            remote.completeResult)

/-- A remote store on which every call succeeds, with placeholder payloads. -/
def remoteOk : Remote :=
  { createResult := Except.ok "uid"
    partResult := fun n => Except.ok ⟨"etag", some "AES256", none, [("n", toString n)]⟩
    putResult := Except.ok ()
    completeResult := Except.ok ()
    abortResult := Except.ok () }

/-- True exactly on `putObject` trace events. -/
def isPutObjectCall : S3Call → Bool
  | S3Call.putObject _ => true
  | _ => false

/-- The sizes of the drained batches appearing in a trace, in order. -/
def drainSizes (trace : List S3Call) : List Nat :=
  trace.filterMap fun ev =>
    match ev with
    | S3Call.batchDrain n => some n
    | _ => none

/-- The `PartNumber` lists submitted to `completeMultipartUpload` in a trace. -/
def completedNumberLists (trace : List S3Call) : List (List (Option Nat)) :=
  trace.filterMap fun ev =>
    match ev with
    | S3Call.completeMultipartUpload _ ps => some (ps.map PartRecord.PartNumber)
    | _ => none

/-- A remote store that succeeds on every call, with the part-upload
responses drawn from an arbitrary function of the part number. -/
def remoteOkWith (pr : Nat → PartRecord) : Remote :=
  { createResult := Except.ok "uid"
    partResult := fun n => Except.ok (pr n)
    putResult := Except.ok ()
    completeResult := Except.ok ()
    abortResult := Except.ok () }

/-- A remote store on which every part upload rejects with `partfail` and the
abort call itself rejects with `abortfail`. -/
def remoteC6 : Remote :=
  { createResult := Except.ok "uid"
    partResult := fun _ => Except.error (JsError.remote "partfail")
    putResult := Except.ok ()
    completeResult := Except.ok ()
    abortResult := Except.error (JsError.remote "abortfail") }

/-- True exactly on the trace events the chunk loop can produce
(`uploadPart` dispatches and `batchDrain` joins). -/
def isLoopCall : S3Call → Bool
  | S3Call.uploadPart _ _ => true
  | S3Call.batchDrain _ => true
  | _ => false

/-- Folding buffer lengths starting from `a` adds the flattened length. -/
theorem foldl_add_length (l : List (List Nat)) :
    ∀ a : Nat, l.foldl (fun acc buff => acc + buff.length) a = a + l.flatten.length := by
  induction l with
  | nil => intro a; simp
  | cons b t ih =>
    intro a
    simp only [List.foldl_cons, List.flatten_cons, List.length_append, ih]
    omega

/-- The `currentChunkSize` getter computes the length of the concatenation of
the accumulated buffers. -/
theorem currentChunkSize_eq (l : List (List Nat)) :
    currentChunkSize l = l.flatten.length := by
  simpa using foldl_add_length l 0

/-- Shape of every chunk resolved by the listener loop: it is non-empty, no
longer than the maximum, and the state left behind is either closed with
nothing pending, or open after an over-maximum emission with the surplus
(and all later events) still non-empty. -/
theorem chunkLoop_some (maxB : Nat) (hmax : 1 ≤ maxB) :
    ∀ (evs acc : List (List Nat)) (c : List Nat) (s' : StreamState),
      (∀ b ∈ acc, b ≠ []) → (∀ e ∈ evs, e ≠ []) →
      acc.flatten.length < maxB →
      chunkLoop maxB acc evs = (some c, s') →
      c ≠ [] ∧ c.length ≤ maxB ∧
        ((s'.closed = true ∧ s'.events = []) ∨
          (c.length = maxB ∧ s'.closed = false ∧ ∀ e ∈ s'.events, e ≠ [])) := by
  intro evs
  induction evs with
  | nil =>
    intro acc c s' hacc _ hlt h
    by_cases hne : acc = []
    · simp [chunkLoop, hne] at h
    · simp only [chunkLoop, if_neg hne, Prod.mk.injEq] at h
      obtain ⟨hc, hs⟩ := h
      injection hc with hc
      subst hc; subst hs
      refine ⟨?_, by omega, Or.inl ⟨rfl, rfl⟩⟩
      intro hflat
      rcases List.exists_cons_of_ne_nil hne with ⟨b, t, rfl⟩
      exact hacc b (by simp) (by simpa using (List.flatten_eq_nil_iff.mp hflat b (by simp)))
  | cons e rest ih =>
    intro acc c s' hacc hev hlt h
    simp only [chunkLoop, currentChunkSize_eq] at h
    by_cases heq : ((acc ++ [e]).flatten).length = maxB
    · rw [if_pos heq] at h
      simp only [Prod.mk.injEq] at h
      obtain ⟨hc, hs⟩ := h
      injection hc with hc
      subst hc; subst hs
      refine ⟨?_, by omega, Or.inl ⟨rfl, rfl⟩⟩
      intro hflat
      rw [hflat] at heq
      simp at heq
      omega
    · rw [if_neg heq] at h
      by_cases hle : ((acc ++ [e]).flatten).length ≤ maxB
      · rw [if_pos hle] at h
        refine ih (acc ++ [e]) c s' ?_ ?_ ?_ h
        · intro b hb
          rcases List.mem_append.mp hb with hb | hb
          · exact hacc b hb
          · simp at hb; subst hb; exact hev b (by simp)
        · intro x hx; exact hev x (by simp [hx])
        · omega
      · rw [if_neg hle] at h
        simp only [Prod.mk.injEq] at h
        obtain ⟨hc, hs⟩ := h
        injection hc with hc
        subst hc; subst hs
        have hlen : (List.take maxB ((acc ++ [e]).flatten)).length = maxB := by
          rw [List.length_take]; omega
        refine ⟨?_, by omega, Or.inr ⟨hlen, rfl, ?_⟩⟩
        · intro hflat
          rw [hflat] at hlen
          simp at hlen
          omega
        · intro x hx
          simp only [List.mem_cons] at hx
          rcases hx with hx | hx
          · subst hx
            intro hdrop
            have hd := congrArg List.length hdrop
            rw [List.length_drop] at hd
            simp only [List.length_nil] at hd
            omega
          · exact hev x (by simp [hx])

/-- Shape of the value and state produced by one `getNextChunk` call on an
open handler whose pending events are all non-empty. -/
theorem getNextChunk_some (maxB : Nat) (hmax : 1 ≤ maxB) (s : StreamState)
    (c : List Nat) (s' : StreamState)
    (hopen : s.closed = false) (hev : ∀ e ∈ s.events, e ≠ [])
    (h : getNextChunk maxB s = (some c, s')) :
    c ≠ [] ∧ c.length ≤ maxB ∧
      ((s'.closed = true ∧ s'.events = []) ∨
        (c.length = maxB ∧ s'.closed = false ∧ ∀ e ∈ s'.events, e ≠ [])) := by
  rw [getNextChunk, hopen] at h
  simp only [Bool.false_eq_true, if_false] at h
  exact chunkLoop_some maxB hmax s.events [] c s' (by simp) hev (by simp; omega) h

/-- A closed handler never emits another chunk. -/
theorem splitAll_closed (maxB fuel : Nat) (s : StreamState) (h : s.closed = true) :
    splitAll maxB fuel s = [] := by
  cases fuel with
  | zero => rfl
  | succ fuel => simp [splitAll, getNextChunk, h]

/-- Size discipline of the whole emitted chunk sequence, for any handler
state whose pending events are all non-empty. -/
theorem splitAll_sizes_aux (maxB : Nat) (hmax : 1 ≤ maxB) :
    ∀ (fuel : Nat) (s : StreamState), (∀ e ∈ s.events, e ≠ []) →
      (∀ c ∈ splitAll maxB fuel s, c ≠ [] ∧ c.length ≤ maxB) ∧
      (∀ c ∈ (splitAll maxB fuel s).dropLast, c.length = maxB) := by
  intro fuel
  induction fuel with
  | zero => intro s _; simp [splitAll]
  | succ fuel ih =>
    intro s hev
    by_cases hcl : s.closed = true
    · rw [splitAll_closed maxB (fuel + 1) s hcl]; simp
    · rw [Bool.not_eq_true] at hcl
      rcases hg : getNextChunk maxB s with ⟨c?, s'⟩
      cases c? with
      | none => simp [splitAll, hg]
      | some c =>
        obtain ⟨hne, hle, hrest⟩ := getNextChunk_some maxB hmax s c s' hcl hev hg
        have hsplit : splitAll maxB (fuel + 1) s = c :: splitAll maxB fuel s' := by
          simp [splitAll, hg]
        rcases hrest with ⟨hcl', _⟩ | ⟨hcmax, hop, hev'⟩
        · rw [hsplit, splitAll_closed maxB fuel s' hcl']
          simp [hne, hle]
        · obtain ⟨ihmem, ihlast⟩ := ih s' hev'
          rw [hsplit]
          constructor
          · intro x hx
            rcases List.mem_cons.mp hx with hx | hx
            · subst hx; exact ⟨hne, hle⟩
            · exact ihmem x hx
          · intro x hx
            rcases ht : splitAll maxB fuel s' with _ | ⟨y, t⟩
            · rw [ht] at hx; simp at hx
            · rw [ht] at hx
              rw [List.dropLast_cons₂] at hx
              rcases List.mem_cons.mp hx with hx | hx
              · subst hx; exact hcmax
              · rw [← ht] at hx; exact ihlast x hx

/-- C2: for a stream of non-empty data events and a positive maximum, every
chunk the splitter emits is non-empty and at most `maxChunkBytes` long, and
every chunk other than the last has length exactly `maxChunkBytes` (so a
source that is an exact multiple of the maximum never yields a trailing
empty chunk). -/
theorem chunk_size_bounds (maxB fuel : Nat) (events : List (List Nat))
    (hmax : 1 ≤ maxB) (hev : ∀ e ∈ events, e ≠ []) :
    (∀ c ∈ splitAll maxB fuel (mkStream events), c ≠ [] ∧ c.length ≤ maxB) ∧
    (∀ c ∈ (splitAll maxB fuel (mkStream events)).dropLast, c.length = maxB) :=
  splitAll_sizes_aux maxB hmax fuel (mkStream events) hev

/-- Witness for C2 at a concrete stream: three bytes split at a maximum of
two into a full chunk and a short final chunk. -/
theorem chunk_size_bounds_witness :
    (∀ c ∈ splitAll 2 9 (mkStream [[1, 2, 3]]), c ≠ [] ∧ c.length ≤ 2) ∧
    (∀ c ∈ (splitAll 2 9 (mkStream [[1, 2, 3]])).dropLast, c.length = 2) :=
  chunk_size_bounds 2 9 [[1, 2, 3]] (by decide) (by decide)

/-- C1: the round-trip property fails on the code.  With `maxChunkBytes = 2`
and a source delivering the events `[1, 2]` and `[3]` (the second already
buffered when the first resolves), the exact-maximum path of `getNextChunk`
(s3.js line 78) resolves after removing its listeners without pausing the
stream, so the flowing stream drops the trailing byte: the emitted chunks
concatenate to `[1, 2]`, not to the source bytes `[1, 2, 3]`. -/
theorem exact_boundary_drops_data :
    splitAll 2 9 (mkStream [[1, 2], [3]]) = [[1, 2]] ∧
    (splitAll 2 9 (mkStream [[1, 2], [3]])).flatten ≠
      ([[1, 2], [3]] : List (List Nat)).flatten := by
  decide

/-- Running the listener loop over events whose total size is exactly the
maximum resolves the whole concatenation through the exact-maximum special
case and leaves the handler closed. -/
theorem chunkLoop_exact (maxB : Nat) :
    ∀ (evs acc : List (List Nat)),
      (∀ e ∈ evs, e ≠ []) → evs ≠ [] →
      acc.flatten.length < maxB →
      acc.flatten.length + evs.flatten.length = maxB →
      chunkLoop maxB acc evs = (some (acc.flatten ++ evs.flatten), ⟨[], true⟩) := by
  intro evs
  induction evs with
  | nil => intro acc _ hne; exact absurd rfl hne
  | cons e rest ih =>
    intro acc hev _ hlt htot
    have hlen1 : ((acc ++ [e]).flatten).length = acc.flatten.length + e.length := by simp
    have hlen2 : ((e :: rest).flatten).length = e.length + rest.flatten.length := by simp
    simp only [chunkLoop, currentChunkSize_eq]
    cases rest with
    | nil =>
      have hnil : (([] : List (List Nat))).flatten.length = 0 := by simp
      have heq : ((acc ++ [e]).flatten).length = maxB := by omega
      rw [if_pos heq]
      simp
    | cons r rest' =>
      have hr : r ≠ [] := hev r (by simp)
      have hrpos : 0 < r.length := List.length_pos.mpr hr
      have hlen3 : ((r :: rest').flatten).length = r.length + rest'.flatten.length := by simp
      rw [if_neg (by omega), if_pos (by omega)]
      have hrec := ih (acc ++ [e]) (fun x hx => hev x (by simp [hx])) (by simp)
        (by omega) (by omega)
      rw [hrec]
      simp

/-- The chunk loop of `putS3Stream` only ever performs part dispatches and
batch joins: no single-shot put, no session creation, no finalize, no abort
happens inside it. -/
theorem uploadLoop_trace_calls (remote : Remote) (maxConc maxB : Nat) :
    ∀ (fuel : Nat) (st : StreamState) (ch : Option (List Nat)) (pending : List Nat)
      (parts : List PartRecord) (pn : Nat),
      ∀ ev ∈ (uploadLoop remote maxConc maxB fuel st ch pending parts pn).1,
        isLoopCall ev = true := by
  intro fuel
  induction fuel with
  | zero =>
    intro st ch pending parts pn ev hev
    simp [uploadLoop] at hev
  | succ fuel ih =>
    intro st ch pending parts pn ev hev
    cases ch with
    | none =>
      by_cases hp : pending = []
      · simp [uploadLoop, hp] at hev
      · rcases ha : awaitAll remote pending with e | ps <;>
          simp [uploadLoop, hp, ha] at hev <;>
          simp [hev, isLoopCall]
    | some c =>
      by_cases hcap : maxConc ≤ pending.length + 1
      · rcases ha : awaitAll remote (pending ++ [pn]) with e | newParts
        · simp [uploadLoop, hcap, ha] at hev
          rcases hev with hev | hev <;> simp [hev, isLoopCall]
        · simp [uploadLoop, hcap, ha] at hev
          rcases hev with hev | hev | hev
          · simp [hev, isLoopCall]
          · simp [hev, isLoopCall]
          · exact ih _ _ _ _ _ ev hev
      · simp [uploadLoop, hcap] at hev
        rcases hev with hev | hev
        · simp [hev, isLoopCall]
        · exact ih _ _ _ _ _ ev hev

/-- Every trace event of the chunk loop is not a `putObject`. -/
theorem isLoopCall_not_putObject (ev : S3Call) (h : isLoopCall ev = true) :
    isPutObjectCall ev = false := by
  cases ev <;> simp [isLoopCall, isPutObjectCall] at *

/-- C4 (amended): a source stream holding exactly `maxChunkBytes` bytes in
total yields exactly one chunk, of exactly `maxChunkBytes` bytes — but
`putS3Stream` routes it to the multipart path, because its strategy test
`chunk.length < streamHandler.max` (s3.js line 224) is strict: a multipart
session is created and no single-shot `putObject` is ever issued. -/
theorem exact_size_goes_multipart (remote : Remote) (maxConc maxB fuelS fuelU : Nat)
    (events : List (List Nat)) (bucket key : String)
    (hmax : 1 ≤ maxB) (hev : ∀ e ∈ events, e ≠ [])
    (htot : events.flatten.length = maxB) (hf : 1 ≤ fuelS) :
    splitAll maxB fuelS (mkStream events) = [events.flatten] ∧
    events.flatten.length = maxB ∧
    (putS3Stream remote maxConc maxB fuelU (mkStream events) bucket key).1.head? =
      some S3Call.createMultipartUpload ∧
    (∀ ev ∈ (putS3Stream remote maxConc maxB fuelU (mkStream events) bucket key).1,
      isPutObjectCall ev = false) := by
  have hne : events ≠ [] := by
    intro h; rw [h] at htot; simp at htot; omega
  have hpull : getNextChunk maxB (mkStream events) = (some events.flatten, ⟨[], true⟩) := by
    rw [getNextChunk]
    simp only [mkStream, Bool.false_eq_true, if_false]
    have := chunkLoop_exact maxB events [] hev hne (by simp; omega) (by simpa using htot)
    simpa using this
  refine ⟨?_, htot, ?_, ?_⟩
  · obtain ⟨f, rfl⟩ : ∃ f, fuelS = f + 1 := ⟨fuelS - 1, by omega⟩
    simp [splitAll, hpull, splitAll_closed]
  · simp only [putS3Stream, hpull]
    rw [if_neg (by omega)]
    rcases remote.createResult with e | uploadId
    · simp
    · rcases hrun : (uploadLoop remote maxConc maxB fuelU ⟨[], true⟩ (some events.flatten)
        [] [] 1).2 with e | rawParts <;> simp [hrun]
  · intro ev hmem
    simp only [putS3Stream, hpull] at hmem
    rw [if_neg (by omega)] at hmem
    rcases hcr : remote.createResult with e | uploadId
    · simp only [hcr] at hmem
      simp at hmem
      simp [hmem, isPutObjectCall]
    · have hloop := uploadLoop_trace_calls remote maxConc maxB fuelU ⟨[], true⟩
        (some events.flatten) [] [] 1 ev
      rcases hrun : (uploadLoop remote maxConc maxB fuelU ⟨[], true⟩ (some events.flatten)
        [] [] 1).2 with e | rawParts <;>
        simp only [hcr, hrun] at hmem <;>
        rcases List.mem_cons.mp hmem with hmem | hmem <;>
        try simp [hmem, isPutObjectCall]
      · rcases List.mem_append.mp hmem with hmem | hmem
        · exact isLoopCall_not_putObject ev (hloop hmem)
        · simp at hmem; simp [hmem, isPutObjectCall]
      · rcases List.mem_append.mp hmem with hmem | hmem
        · exact isLoopCall_not_putObject ev (hloop hmem)
        · simp at hmem; simp [hmem, isPutObjectCall]

/-- Witness for the amended C4: a two-byte source with a two-byte maximum. -/
theorem exact_size_goes_multipart_witness :
    splitAll 2 5 (mkStream [[1, 2]]) = [([[1, 2]] : List (List Nat)).flatten] ∧
    ([[1, 2]] : List (List Nat)).flatten.length = 2 ∧
    (putS3Stream remoteOk 10 2 5 (mkStream [[1, 2]]) "b" "k").1.head? =
      some S3Call.createMultipartUpload ∧
    (∀ ev ∈ (putS3Stream remoteOk 10 2 5 (mkStream [[1, 2]]) "b" "k").1,
      isPutObjectCall ev = false) :=
  exact_size_goes_multipart remoteOk 10 2 5 5 [[1, 2]] "b" "k" (by decide) (by decide)
    (by decide) (by decide)

/-- C3: `putS3Stream` decides its strategy from the single first chunk it
pulls.  When that chunk is strictly shorter than the maximum it performs
exactly one single-shot `putObject` of that chunk and nothing else — in
particular no multipart session is ever created; otherwise its first remote
call is `createMultipartUpload`. -/
theorem putS3Stream_strategy (remote : Remote) (maxConc maxB fuel : Nat)
    (s0 : StreamState) (bucket key : String) (c : List Nat) (s1 : StreamState)
    (h : getNextChunk maxB s0 = (some c, s1)) :
    (c.length < maxB →
      (putS3Stream remote maxConc maxB fuel s0 bucket key).1 =
        [S3Call.putObject (putS3ObjectParams c bucket key)]) ∧
    (maxB ≤ c.length →
      (putS3Stream remote maxConc maxB fuel s0 bucket key).1.head? =
        some S3Call.createMultipartUpload) := by
  constructor
  · intro hlt
    simp [putS3Stream, h, hlt]
  · intro hge
    simp only [putS3Stream, h]
    rw [if_neg (by omega)]
    rcases remote.createResult with e | uploadId
    · simp
    · rcases hrun : (uploadLoop remote maxConc maxB fuel s1 (some c) [] [] 1).2
        with e | rawParts <;> simp [hrun]

/-- Witness for C3: a two-byte first (and only) chunk under a five-byte
maximum takes the single-shot path. -/
theorem putS3Stream_strategy_witness :
    (putS3Stream remoteOk 10 5 9 (mkStream [[1, 2]]) "b" "k").1 =
      [S3Call.putObject (putS3ObjectParams [1, 2] "b" "k")] :=
  (putS3Stream_strategy remoteOk 10 5 9 (mkStream [[1, 2]]) "b" "k" [1, 2]
    ⟨[], true⟩ (by decide)).1 (by decide)

/-- C5: on an empty source stream the first pull resolves `null`, and
`putS3Stream` then evaluates `chunk.length` on line 224 — a JavaScript
`TypeError` — before making any remote call: the claimed zero-length
single-shot put never happens. -/
theorem empty_stream_throws (remote : Remote) (maxConc maxB fuel : Nat)
    (bucket key : String) :
    putS3Stream remote maxConc maxB fuel (mkStream []) bucket key =
      ([], Except.error (JsError.typeError "cannot read length of null")) := rfl

/-- C6: when a part upload fails and the abort call itself also fails, the
abort call is still made exactly once with the session identifier, but the
error the caller observes is the abort failure, not the original part-upload
failure: the unguarded `await` inside the `catch` block (s3.js line 281)
lets the abort rejection replace the original error. -/
theorem abort_failure_replaces_original :
    (putS3Stream remoteC6 10 1 9 (mkStream [[1, 2]]) "b" "k").2 =
      Except.error (JsError.remote "abortfail") ∧
    (putS3Stream remoteC6 10 1 9 (mkStream [[1, 2]]) "b" "k").1.count
      (S3Call.abortMultipartUpload "uid") = 1 ∧
    JsError.remote "abortfail" ≠ JsError.remote "partfail" :=
  ⟨rfl, by decide, by decide⟩

/-- C7: with `maxConcurrent = 3` and a source splitting into 7 parts, the
uploader drains exactly 3 batches of sizes 3, 3 and 1, and the finalize call
receives exactly the parts numbered 1 through 7 in ascending order — for
every assignment of remote part-upload responses (`Promise.all` returns its
results in dispatch order, so the completion order within a batch cannot
influence either fact). -/
theorem seven_parts_three_batches (pr : Nat → PartRecord) :
    drainSizes
        (putS3Stream (remoteOkWith pr) 3 1 20 (mkStream [[1, 2, 3, 4, 5, 6, 7]]) "b" "k").1 =
      [3, 3, 1] ∧
    completedNumberLists
        (putS3Stream (remoteOkWith pr) 3 1 20 (mkStream [[1, 2, 3, 4, 5, 6, 7]]) "b" "k").1 =
      [[some 1, some 2, some 3, some 4, some 5, some 6, some 7]] :=
  ⟨rfl, rfl⟩

/-- The renumbering pass keeps list length. -/
theorem finalizeGo_length : ∀ (l : List PartRecord) (k : Nat),
    (finalizeGo k l).length = l.length := by
  intro l
  induction l with
  | nil => intro k; rfl
  | cons p ps ih => intro k; simp [finalizeGo, ih]

/-- The renumbering pass stamps consecutive part numbers starting at `k`. -/
theorem finalizeGo_map_partNumber : ∀ (l : List PartRecord) (k : Nat),
    (finalizeGo k l).map PartRecord.PartNumber = (List.range' k l.length).map some := by
  intro l
  induction l with
  | nil => intro k; rfl
  | cons p ps ih => intro k; simp [finalizeGo, List.range'_succ, ih]

/-- C8: whatever stream, remote behaviour and configuration produced it, any
list of part records submitted to `completeMultipartUpload` by `putS3Stream`
carries the part numbers `1, 2, ..., N` (`N` its length) exactly, in
ascending order, with no gaps and no duplicates. -/
theorem complete_receives_contiguous_parts (remote : Remote)
    (maxConc maxB fuel : Nat) (s0 : StreamState) (bucket key : String)
    (uid : String) (ps : List PartRecord)
    (h : S3Call.completeMultipartUpload uid ps ∈
      (putS3Stream remote maxConc maxB fuel s0 bucket key).1) :
    ps.map PartRecord.PartNumber = (List.range' 1 ps.length).map some := by
  rcases hp : (getNextChunk maxB s0).1 with _ | c
  · simp only [putS3Stream, hp] at h
    simp at h
  · simp only [putS3Stream, hp] at h
    by_cases hlt : c.length < maxB
    · rw [if_pos hlt] at h
      simp at h
    · rw [if_neg hlt] at h
      have hloop := uploadLoop_trace_calls remote maxConc maxB fuel
        (getNextChunk maxB s0).2 (some c) [] [] 1 (S3Call.completeMultipartUpload uid ps)
      rcases hcr : remote.createResult with e | uploadId
      · simp only [hcr] at h
        simp at h
      · rcases hrun : (uploadLoop remote maxConc maxB fuel (getNextChunk maxB s0).2
          (some c) [] [] 1).2 with e | rawParts <;> simp only [hcr, hrun] at h
        · rcases List.mem_cons.mp h with h | h
          · exact absurd h (by simp)
          · rcases List.mem_append.mp h with h | h
            · exact absurd (hloop h) (by simp [isLoopCall])
            · simp at h
        · rcases List.mem_cons.mp h with h | h
          · exact absurd h (by simp)
          · rcases List.mem_append.mp h with h | h
            · exact absurd (hloop h) (by simp [isLoopCall])
            · simp at h
              obtain ⟨-, rfl⟩ := h
              simp [finalizeParts, finalizeGo_map_partNumber, finalizeGo_length]

/-- Witness for C8: the single-part multipart run of an exactly-maximum
source submits exactly part number 1. -/
theorem complete_receives_contiguous_parts_witness :
    ([⟨"etag", none, some 1, [("n", "1")]⟩] : List PartRecord).map PartRecord.PartNumber =
      (List.range' 1
        ([⟨"etag", none, some 1, [("n", "1")]⟩] : List PartRecord).length).map some :=
  complete_receives_contiguous_parts remoteOk 10 2 9 (mkStream [[1, 2]]) "b" "k" "uid"
    [⟨"etag", none, some 1, [("n", "1")]⟩] (by decide)

/-- The end-anchored regex test succeeds exactly when `.html` is a suffix of
the subject. -/
theorem matchDotHtmlEnd_iff (cs : List Char) :
    matchDotHtmlEnd cs = true ↔ dotHtml <:+ cs := by
  induction cs with
  | nil =>
    simp only [matchDotHtmlEnd, List.suffix_nil]
    simp [dotHtml]
  | cons c t ih =>
    simp only [matchDotHtmlEnd, List.suffix_cons_iff]
    by_cases h : c :: t = dotHtml
    · simp [h]
    · rw [if_neg h, ih]
      constructor
      · intro hs; exact Or.inr hs
      · intro hs
        rcases hs with hs | hs
        · exact absurd hs.symm h
        · exact hs

/-- C9: `putS3Object` sets `ContentType` to `text/html` exactly when the
object key ends with `.html`, and sets no `ContentType` member at all for
every other key. -/
theorem putS3Object_contentType (body : List Nat) (bucket key : String) :
    ((putS3ObjectParams body bucket key).ContentType = some "text/html" ↔
      dotHtml <:+ key.data) ∧
    ((putS3ObjectParams body bucket key).ContentType = some "text/html" ∨
      (putS3ObjectParams body bucket key).ContentType = none) := by
  constructor
  · constructor
    · intro hct
      by_cases h : matchDotHtmlEnd key.data = true
      · exact (matchDotHtmlEnd_iff key.data).mp h
      · exfalso
        simp [putS3ObjectParams, h] at hct
    · intro hs
      have h : matchDotHtmlEnd key.data = true := (matchDotHtmlEnd_iff key.data).mpr hs
      simp [putS3ObjectParams, h]
  · by_cases h : matchDotHtmlEnd key.data = true
    · exact Or.inl (by simp [putS3ObjectParams, h])
    · exact Or.inr (by simp [putS3ObjectParams, h])

/-- Position-indexed description of the renumbering pass, offset by `k`. -/
theorem finalizeGo_getElem : ∀ (l : List PartRecord) (k i : Nat) (p : PartRecord),
    l[i]? = some p →
    (finalizeGo k l)[i]? = some ⟨p.ETag, none, some (k + i), p.others⟩ := by
  intro l
  induction l with
  | nil => intro k i p h; simp at h
  | cons q t ih =>
    intro k i p h
    cases i with
    | zero =>
      simp at h
      subst h
      simp [finalizeGo]
    | succ i =>
      simp only [List.getElem?_cons_succ] at h
      simp only [finalizeGo, List.getElem?_cons_succ]
      rw [ih (k + 1) i p h]
      have : k + 1 + i = k + (i + 1) := by omega
      rw [this]

/-- C10: the record at position `i` of the list submitted to
`completeMultipartUpload` is the `i`-th collected part-upload response with
its `ServerSideEncryption` member removed and its `PartNumber` member
overwritten by the 1-based position `i + 1`; its `ETag` and all its other
members are passed through unchanged. -/
theorem finalizeParts_frame (l : List PartRecord) (i : Nat) (p : PartRecord)
    (h : l[i]? = some p) :
    (finalizeParts l)[i]? = some ⟨p.ETag, none, some (i + 1), p.others⟩ := by
  rw [finalizeParts, finalizeGo_getElem l 1 i p h]
  have : 1 + i = i + 1 := by omega
  rw [this]

/-- Witness for C10 on a one-element list holding an encryption member and an
extra field. -/
theorem finalizeParts_frame_witness :
    (finalizeParts [⟨"tag9", some "AES256", none, [("RequestCharged", "requester")]⟩])[0]? =
      some ⟨"tag9", none, some 1, [("RequestCharged", "requester")]⟩ :=
  finalizeParts_frame [⟨"tag9", some "AES256", none, [("RequestCharged", "requester")]⟩]
    0 ⟨"tag9", some "AES256", none, [("RequestCharged", "requester")]⟩ (by decide)

/-- C4 as stated is false: a source of exactly `maxChunkBytes` bytes (two
bytes with a two-byte maximum) is not routed to the single-shot put path —
the run opens a multipart session and never issues a `putObject`. -/
theorem exact_size_single_shot_counterexample :
    S3Call.createMultipartUpload ∈
      (putS3Stream remoteOk 10 2 5 (mkStream [[1, 2]]) "b" "k").1 ∧
    (putS3Stream remoteOk 10 2 5 (mkStream [[1, 2]]) "b" "k").1.countP
      isPutObjectCall = 0 := by
  decide
